import Mathlib

/-!
Verification of the filesystem-operation layer of `tauri-explorer`.

The Python domain layer (`src-python/domain/file_entry.py`,
`src-python/domain/file_ops.py`) and the search walk
(`src-python/api/routes/files.py`) are shallowly embedded here:

* filesystem state is abstracted to what the code actually consults —
  an existence predicate `String → Bool` over names in one directory for
  `create_directory` / `rename_entry` / the copy-name generator, and a
  partial map `List String → Option FNode` from component paths to nodes
  for `move_entry`;
* `pathlib.Path` values are represented by their component lists
  (`List String`); `path.name` is the last component;
* Python exceptions become `Except FsError` results
  (`ValueError` ↦ `invalidName`, `FileNotFoundError` ↦ `notFound`,
  `FileExistsError` ↦ `alreadyExists`, and the
  `FileExistsError("Too many copies exist")` raised by the copy-name
  generator ↦ `tooManyCopies`);
* the recursive `os.walk`-based enumeration of `walk_entries` is embedded
  as a budgeted structural recursion over a finite directory tree.
-/

/-- Error kinds corresponding to the exceptions raised by the domain layer. -/
inductive FsError where
  | notFound
  | alreadyExists
  | invalidName
  | tooManyCopies
  deriving DecidableEq

/-- Embeds `create_directory` (file_ops.py lines 16-50), keeping only the
control flow that decides acceptance or rejection.  `name` is `path.name`
(the final component of the requested path), `pathExists` is
`path.exists()` and `parentExists` is `path.parent.exists()` at call time.
The checks run in the source's order: empty name, then target existence,
then parent existence. -/
def create_directory (name : String) (pathExists parentExists : Bool) :
    Except FsError Unit :=
  if name = "" then .error .invalidName
  else if pathExists then .error .alreadyExists
  else if !parentExists then .error .notFound
  else .ok ()

/-- Embeds `rename_entry` (file_ops.py lines 53-93).  The parent directory
of `source` is abstracted to the predicate `siblings` telling which names
exist inside it: `source.exists()` is `siblings sourceName` and
`(source.parent / new_name).exists()` is `siblings newName`. -/
def rename_entry (siblings : String → Bool) (sourceName newName : String) :
    Except FsError String :=
  if newName = "" then .error .invalidName
  else if !siblings sourceName then .error .notFound
  else if siblings newName then .error .alreadyExists
  else .ok newName

/-- Splits a character list at its last `'.'`, returning the parts before
and after it, or `none` when no dot occurs.  This is Python's
`source_name.rsplit(".", 1)` combined with the `"." in source_name` guard
of `_generate_copy_name` (file_ops.py lines 132-135). -/
def rsplitLastDot : List Char → Option (List Char × List Char)
  | [] => none
  | c :: rest =>
    match rsplitLastDot rest with
    | some p => some (c :: p.1, p.2)
    | none => if c = '.' then some ([], rest) else none

/-- The base-name/extension split of `_generate_copy_name`
(file_ops.py lines 127-138): directories are never split; file names are
split at the last dot when one is present, the extension keeping its
leading dot. -/
def split_name (is_directory : Bool) (source_name : String) : String × String :=
  if is_directory then (source_name, "")
  else
    match rsplitLastDot source_name.data with
    | some p => (String.mk p.1, "." ++ String.mk p.2)
    | none => (source_name, "")

/-- The first candidate tried by `_generate_copy_name`:
`f"{base_name} - Copy{extension}"` (file_ops.py line 141). -/
def plainCopyName (source_name : String) (is_directory : Bool) : String :=
  (split_name is_directory source_name).1 ++ " - Copy" ++
    (split_name is_directory source_name).2

/-- The numbered candidates tried by `_generate_copy_name`:
`f"{base_name} - Copy ({counter}){extension}"` (file_ops.py line 149). -/
def numberedCopyName (source_name : String) (is_directory : Bool) (k : Nat) :
    String :=
  (split_name is_directory source_name).1 ++ " - Copy (" ++ toString k ++ ")" ++
    (split_name is_directory source_name).2

/-- The `while True` loop of `_generate_copy_name` (file_ops.py lines
147-155).  The Python loop starts at `counter = 2`, returns the first
candidate whose target does not exist, and raises
`FileExistsError("Too many copies exist")` once `counter` passes 1000,
i.e. after testing counters 2..1000 — 999 iterations, embedded here as the
initial fuel. -/
def tryCounters (ex : String → Bool) (base ext : String) :
    Nat → Nat → Except FsError String
  | 0, _ => .error .tooManyCopies
  | fuel + 1, counter =>
    if ex (base ++ " - Copy (" ++ toString counter ++ ")" ++ ext) then
      tryCounters ex base ext fuel (counter + 1)
    else .ok (base ++ " - Copy (" ++ toString counter ++ ")" ++ ext)

/-- Embeds `_generate_copy_name` (file_ops.py lines 116-155).  The
destination directory is abstracted to the predicate `ex` telling which
names already exist in it (`(dest_dir / candidate).exists()`). -/
def generate_copy_name (ex : String → Bool) (source_name : String)
    (is_directory : Bool) : Except FsError String :=
  let be := split_name is_directory source_name
  if ex (be.1 ++ " - Copy" ++ be.2) then tryCounters ex be.1 be.2 999 2
  else .ok (be.1 ++ " - Copy" ++ be.2)

/-- The target-name selection of `copy_entry` (file_ops.py lines 182-186):
the copy is written to `dest_dir / source.name` when that name is free and
otherwise to the name produced by `_generate_copy_name`. -/
def copy_target_name (ex : String → Bool) (source_name : String)
    (is_directory : Bool) : Except FsError String :=
  if ex source_name then generate_copy_name ex source_name is_directory
  else .ok source_name

/-- Filesystem node: a directory or a file with its content. -/
inductive FNode where
  | dir
  | file (content : String)
  deriving DecidableEq

/-- A filesystem: a partial map from component paths to nodes.  A path
exists exactly when it is mapped to a node. -/
abbrev Fs := List String → Option FNode

/-- The effect of `shutil.move(source, target)` on the filesystem map:
the whole subtree rooted at `src` reappears rooted at `tgt` and vanishes
from its old place.  (Moving a directory into its own subtree is rejected
by `shutil.move` and is outside this model; the theorem about `move_entry`
assumes `src` is not a proper ancestor of `tgt`.) -/
def fsMove (fs : Fs) (src tgt : List String) : Fs :=
  fun p =>
    if tgt <+: p then fs (src ++ p.drop tgt.length)
    else if src <+: p then none
    else fs p

/-- Embeds `move_entry` (file_ops.py lines 206-245): source-existence
check, destination-directory check, hard collision check on
`dest_dir / source.name`, then the move itself.  On success it returns the
post-move filesystem together with the target path. -/
def move_entry (fs : Fs) (source destDir : List String) :
    Except FsError (Fs × List String) :=
  if (fs source).isNone then .error .notFound
  else if (fs destDir).isNone then .error .notFound
  else if (fs (destDir ++ [source.getLastD ""])).isSome then
    .error .alreadyExists
  else .ok (fsMove fs source (destDir ++ [source.getLastD ""]),
            destDir ++ [source.getLastD ""])

/-- Entry kind, the `Literal["file", "directory"]` of file_entry.py. -/
inductive EKind where
  | directory
  | file
  deriving DecidableEq

/-- The `FileEntry` dataclass of file_entry.py. -/
structure FileEntry where
  name : String
  path : String
  kind : EKind
  size : Nat
  modified : String
  deriving DecidableEq

/-- Outcome of `item.stat()` for one child during `list_directory`:
either the stat data needed to build a `FileEntry`, or a failure
(`PermissionError` / `OSError`). -/
inductive StatOutcome where
  | ok (isDir : Bool) (size : Nat) (modified : String)
  | fail
  deriving DecidableEq

/-- One child of the directory being listed, as produced by
`path.iterdir()`: its name, its absolute path string, and what `stat`
reports for it. -/
structure RawChild where
  name : String
  path : String
  stat : StatOutcome
  deriving DecidableEq

/-- The per-child body of the `for item in path.iterdir()` loop of
`list_directory` (file_entry.py lines 43-55): a failed stat yields no
entry, a successful one yields the `FileEntry` built from it (size forced
to 0 for directories). -/
def toEntry (c : RawChild) : Option FileEntry :=
  match c.stat with
  | .fail => none
  | .ok isDir sz md =>
    some ⟨c.name, c.path, if isDir then .directory else .file,
          if isDir then 0 else sz, md⟩

/-- Numeric form of the Python sort-key component `e.kind != "directory"`
(file_entry.py line 59): `False` (0) for directories, `True` (1) for
files, so directories order first. -/
def kindRank (k : EKind) : Nat :=
  match k with
  | .directory => 0
  | .file => 1

/-- The total preorder induced by the Python sort key
`(e.kind != "directory", e.name.lower())` under tuple comparison. -/
def entryLE (a b : FileEntry) : Prop :=
  kindRank a.kind < kindRank b.kind ∨
    (kindRank a.kind = kindRank b.kind ∧ a.name.toLower ≤ b.name.toLower)

instance : DecidableRel entryLE := fun a b => by
  unfold entryLE; infer_instance

instance : IsTotal FileEntry entryLE :=
  ⟨fun a b => by
    unfold entryLE
    rcases Nat.lt_trichotomy (kindRank a.kind) (kindRank b.kind) with h | h | h
    · exact Or.inl (Or.inl h)
    · rcases le_total a.name.toLower b.name.toLower with hs | hs
      · exact Or.inl (Or.inr ⟨h, hs⟩)
      · exact Or.inr (Or.inr ⟨h.symm, hs⟩)
    · exact Or.inr (Or.inl h)⟩

instance : IsTrans FileEntry entryLE :=
  ⟨fun a b c hab hbc => by
    unfold entryLE at hab hbc ⊢
    rcases hab with h1 | ⟨h1, h1s⟩ <;> rcases hbc with h2 | ⟨h2, h2s⟩
    · exact Or.inl (h1.trans h2)
    · exact Or.inl (h2 ▸ h1)
    · exact Or.inl (h1 ▸ h2)
    · exact Or.inr ⟨h1.trans h2, h1s.trans h2s⟩⟩

/-- Embeds `list_directory` (file_entry.py lines 23-62): build an entry
per child, silently dropping the children whose stat failed, then sort
with the key `(kind != "directory", name.lower())`.  The stable sort of
Python's `sorted` is modelled by insertion sort over the same total
preorder. -/
def list_directory (children : List RawChild) : List FileEntry :=
  List.insertionSort entryLE (children.filterMap toEntry)

/-- The skip-set of the recursive search (files.py lines 237-243). -/
def SKIP_DIRS : List String :=
  [".git", ".svn", ".hg",
   "node_modules", "__pycache__", ".venv", "venv",
   ".cache", ".npm", ".cargo",
   "target", "build", "dist", "out",
   ".idea", ".vscode"]

/-- Python's `name.startswith(".")`: the first character is a dot. -/
def startsWithDot (s : String) : Bool :=
  match s.data with
  | [] => false
  | c :: _ => c = '.'

/-- The pruning predicate of `walk_entries` (files.py line 276): a child
directory is entered (and emitted) only when its name is neither in
`SKIP_DIRS` nor dot-prefixed. -/
def isTraversable (d : String) : Bool :=
  !SKIP_DIRS.contains d && !startsWithDot d

mutual
/-- A finite directory tree: named subdirectories and file names, in the
enumeration order `os.walk` reports them. -/
inductive DirTree where
  | node (subdirs : DirForest) (files : List String)
/-- The ordered children list of a directory. -/
inductive DirForest where
  | nil
  | cons (name : String) (tree : DirTree) (rest : DirForest)
end

/-- The `visible_dirs` filter of `walk_entries` (files.py line 276). -/
def visNames : DirForest → List String
  | .nil => []
  | .cons n _ rest =>
    if isTraversable n then n :: visNames rest else visNames rest

/-- One `for` loop of `walk_entries` that yields entries of a fixed kind
under the running budget `max_entries - count`: each yield is guarded by
`if count >= max_entries: return`, so a zero budget stops the emission. -/
def yieldNames (kind : EKind) (relDir : List String) :
    Nat → List String → List (List String × EKind) × Nat
  | b, [] => ([], b)
  | 0, _ :: _ => ([], 0)
  | b + 1, n :: ns =>
    let r := yieldNames kind relDir b ns
    ((relDir ++ [n], kind) :: r.1, r.2)

mutual
/-- Embeds `walk_entries` (files.py lines 268-297) at one directory of the
`os.walk` traversal: first the visible subdirectory names are yielded,
then the non-dot file names, then the walk descends into each visible
subdirectory in order.  `relDir` is the component list of
`Path(dirpath).relative_to(root)` (empty at the root, where the source's
`str(rel_dir) != "."` special case makes the relative path the bare name);
`b` is the remaining global budget `max_entries - count`. -/
def walkTree (b : Nat) (relDir : List String) :
    DirTree → List (List String × EKind) × Nat
  | .node ds files =>
    let r1 := yieldNames .directory relDir b (visNames ds)
    let r2 := yieldNames .file relDir r1.2
      (files.filter (fun f => !startsWithDot f))
    let r3 := walkForest r2.2 relDir ds
    (r1.1 ++ (r2.1 ++ r3.1), r3.2)
/-- The recursive descent of `os.walk` into the (in-place filtered)
subdirectory list: pruned names are skipped without being visited. -/
def walkForest (b : Nat) (relDir : List String) :
    DirForest → List (List String × EKind) × Nat
  | .nil => ([], b)
  | .cons n t rest =>
    if isTraversable n then
      let r1 := walkTree b (relDir ++ [n]) t
      let r2 := walkForest r1.2 relDir rest
      (r1.1 ++ r2.1, r2.2)
    else walkForest b relDir rest
end

/-- The full emission of `walk_entries(root, max_entries)`: relative paths
(as component lists) with their kinds, in yield order. -/
def walk_entries (t : DirTree) (max_entries : Nat) :
    List (List String × EKind) :=
  (walkTree max_entries [] t).1

/-- Destination directory containing only `a.txt` (witness data). -/
def exOne (s : String) : Bool := s == "a.txt"

/-- Destination directory in which every candidate name is already taken
(counterexample data; realized by a finite directory holding the source
name and all 1000 generated candidates, the only names the generator ever
queries). -/
def exAll (_ : String) : Bool := true

/-- Destination directory containing only `.env` (witness data). -/
def exDot (s : String) : Bool := s == ".env"

/-- A small filesystem: the root, a file `a` and an empty directory `b`
(witness data). -/
def fsW : Fs := fun p =>
  if p = [] then some .dir
  else if p = ["a"] then some (.file "payload")
  else if p = ["b"] then some .dir
  else none

/-- A directory containing only `f.txt` (witness data). -/
def sibsW (s : String) : Bool := s == "f.txt"

/-- A small tree: subdirectories `sub` (holding `f.txt`) and `.git`
(holding `hidden.txt`), files `a.txt` and `.dotfile` (witness data). -/
def treeW : DirTree :=
  .node (.cons "sub" (.node .nil ["f.txt"])
          (.cons ".git" (.node .nil ["hidden.txt"]) .nil))
        ["a.txt", ".dotfile"]

/-! ## Helper lemmas -/

/-- The counter loop returns the candidate with the least free counter in
its range, provided every smaller counter in range is taken. -/
theorem tryCounters_found (ex : String → Bool) (base ext : String) :
    ∀ fuel c k, c ≤ k → k < c + fuel →
      ex (base ++ " - Copy (" ++ toString k ++ ")" ++ ext) = false →
      (∀ j, c ≤ j → j < k →
        ex (base ++ " - Copy (" ++ toString j ++ ")" ++ ext) = true) →
      tryCounters ex base ext fuel c =
        Except.ok (base ++ " - Copy (" ++ toString k ++ ")" ++ ext) := by
  intro fuel
  induction fuel with
  | zero => intro c k h1 h2 _ _; omega
  | succ f ih =>
    intro c k h1 h2 hfree hbelow
    rcases Nat.eq_or_lt_of_le h1 with rfl | hlt
    · simp [tryCounters, hfree]
    · have hc : ex (base ++ " - Copy (" ++ toString c ++ ")" ++ ext) = true :=
        hbelow c (Nat.le_refl c) hlt
      simp only [tryCounters, hc, if_true]
      exact ih (c + 1) k hlt (by omega) hfree
        (fun j hj1 hj2 => hbelow j (by omega) hj2)

/-- When every counter in range is taken, the loop exhausts its fuel and
reports `tooManyCopies`. -/
theorem tryCounters_all_taken (ex : String → Bool) (base ext : String) :
    ∀ fuel c,
      (∀ j, c ≤ j → j < c + fuel →
        ex (base ++ " - Copy (" ++ toString j ++ ")" ++ ext) = true) →
      tryCounters ex base ext fuel c = Except.error FsError.tooManyCopies := by
  intro fuel
  induction fuel with
  | zero => intro c _; rfl
  | succ f ih =>
    intro c hall
    have hc : ex (base ++ " - Copy (" ++ toString c ++ ")" ++ ext) = true :=
      hall c (Nat.le_refl c) (by omega)
    simp only [tryCounters, hc, if_true]
    exact ih (c + 1) (fun j hj1 hj2 => hall j (by omega) (by omega))

/-- A character list without a dot is not split. -/
theorem rsplitLastDot_of_not_mem (cs : List Char) (h : '.' ∉ cs) :
    rsplitLastDot cs = none := by
  induction cs with
  | nil => rfl
  | cons c rest ih =>
    have hc : ¬ c = '.' := fun hcc => h (hcc ▸ List.mem_cons_self c rest)
    have hr : '.' ∉ rest := fun hm => h (List.mem_cons_of_mem c hm)
    simp [rsplitLastDot, ih hr, hc]

/-! ## C3 and C9 -/

/-- C3 (amended): `create_directory` is rejected with `InvalidName` iff
the final path component is empty, and with `AlreadyExists` iff the final
component is nonempty and the target path already exists; an empty name is
reported as `InvalidName` even when the path exists, because the
empty-name check runs first. -/
theorem create_directory_error_iff (name : String)
    (pathExists parentExists : Bool) :
    (create_directory name pathExists parentExists =
        Except.error FsError.invalidName ↔ name = "") ∧
    (create_directory name pathExists parentExists =
        Except.error FsError.alreadyExists ↔ (name ≠ "" ∧ pathExists = true)) := by
  by_cases h : name = "" <;>
    cases pathExists <;> cases parentExists <;>
    simp [create_directory, h]

/-- C3 counterexample: at the concrete input with an empty final component
and an existing target path (e.g. `Path("/")`), the code rejects with
`InvalidName`, not `AlreadyExists`, refuting the claimed
"`AlreadyExists` iff the target path already exists". -/
theorem create_directory_claim_cex :
    create_directory "" true true = Except.error FsError.invalidName ∧
    create_directory "" true true ≠ Except.error FsError.alreadyExists := by
  constructor
  · rfl
  · intro h
    simp [create_directory] at h

/-- C9: renaming an existing entry to its own (nonempty) name fails with
`AlreadyExists`, because the sibling-existence check on the target hits
the source itself; it is never a successful no-op. -/
theorem rename_entry_self_collision (siblings : String → Bool)
    (sourceName : String) (hne : sourceName ≠ "")
    (hex : siblings sourceName = true) :
    rename_entry siblings sourceName sourceName =
      Except.error FsError.alreadyExists := by
  simp [rename_entry, hne, hex]

/-- C9 witness: renaming `f.txt` to `f.txt` in a directory containing it. -/
theorem rename_entry_self_collision_witness :
    rename_entry sibsW "f.txt" "f.txt" = Except.error FsError.alreadyExists :=
  rename_entry_self_collision sibsW "f.txt" (by decide) (by decide)

/-! ## C2 and C7 -/

/-- C2: the sequence returned by `list_directory` is ordered so that every
directory-kind entry precedes every file-kind entry, and within each kind
the lowered names are non-decreasing (case-insensitive order). -/
theorem list_directory_sorted (children : List RawChild) :
    (list_directory children).Pairwise
      (fun a b =>
        (a.kind = EKind.directory ∧ b.kind = EKind.file) ∨
        (a.kind = b.kind ∧ a.name.toLower ≤ b.name.toLower)) := by
  have h := List.sorted_insertionSort entryLE (children.filterMap toEntry)
  refine List.Pairwise.imp ?_ h
  intro a b hab
  rcases hab with h1 | ⟨h1, h2⟩
  · cases ha : a.kind <;> cases hb : b.kind <;>
      simp [kindRank, ha, hb] at h1 ⊢
  · refine Or.inr ⟨?_, h2⟩
    cases ha : a.kind <;> cases hb : b.kind <;>
      simp [kindRank, ha, hb] at h1 ⊢

/-- C7: a child whose stat fails is silently skipped — inserting an
inaccessible child anywhere in the enumeration leaves the listing exactly
as if that child were absent, so one bad child never aborts the listing. -/
theorem list_directory_skips_failed_stat (xs ys : List RawChild)
    (n p : String) :
    list_directory (xs ++ ⟨n, p, StatOutcome.fail⟩ :: ys) =
      list_directory (xs ++ ys) := by
  unfold list_directory
  congr 1
  simp [List.filterMap_append, List.filterMap_cons, toEntry]

/-! ## C1, C8 and C10: the collision-avoidance naming algorithm -/

/-- C1 (amended): when `destDir/<source name>` is taken but at least one
of the candidate names is still free, `copy` does not fail: if
`name - Copy<ext>` is free it is chosen, and otherwise the candidate
`name - Copy (k)<ext>` with the smallest free `k` in 2..1000 is chosen;
for directories no extension component is split off.
(The unamended claim promised this for every directory state; it fails
when all 1000 candidates are taken, see the counterexample.) -/
theorem copy_collision_free_name (ex : String → Bool) (name : String)
    (isDir : Bool) (hcol : ex name = true) :
    split_name true name = (name, "") ∧
    (ex (plainCopyName name isDir) = false →
      copy_target_name ex name isDir = Except.ok (plainCopyName name isDir)) ∧
    (ex (plainCopyName name isDir) = true →
      ∀ k, 2 ≤ k → k ≤ 1000 →
        ex (numberedCopyName name isDir k) = false →
        (∀ j, 2 ≤ j → j < k → ex (numberedCopyName name isDir j) = true) →
        copy_target_name ex name isDir =
          Except.ok (numberedCopyName name isDir k)) := by
  refine ⟨by simp [split_name], ?_, ?_⟩
  · intro hfree
    simp only [plainCopyName] at hfree
    simp [copy_target_name, generate_copy_name, hcol, hfree, plainCopyName]
  · intro htaken k hk2 hk1000 hkfree hbelow
    simp only [plainCopyName] at htaken
    simp only [copy_target_name, generate_copy_name, hcol, if_true, htaken]
    simp only [numberedCopyName] at hkfree hbelow ⊢
    exact tryCounters_found ex _ _ 999 2 k hk2 (by omega) hkfree hbelow

/-- C1 counterexample: in a destination directory where the source name
and every generated candidate already exist (a finite directory with
those 1001 names realizes this, since the generator queries no other
names), `copy` does fail because of the name collisions, with the
`Too many copies exist` error. -/
theorem copy_collision_free_name_cex :
    copy_target_name exAll "a.txt" false = Except.error FsError.tooManyCopies := by
  simp only [copy_target_name, generate_copy_name, exAll, if_true]
  exact tryCounters_all_taken exAll _ _ 999 2 (fun j _ _ => rfl)

/-- C1 witness: copying `a.txt` into a directory that contains only
`a.txt` yields the free plain candidate `a - Copy.txt`. -/
theorem copy_collision_free_name_witness :
    exOne "a.txt" = true ∧
    copy_target_name exOne "a.txt" false =
      Except.ok (plainCopyName "a.txt" false) :=
  ⟨by decide, (copy_collision_free_name exOne "a.txt" false (by decide)).2.1
    (by decide)⟩

/-- C8: when the plain candidate and all numbered candidates 2..1000 are
taken, the generator stops with the `Too many copies exist` failure after
those 1000 attempts instead of looping on. -/
theorem generate_copy_name_exhausted (ex : String → Bool) (name : String)
    (isDir : Bool) (hplain : ex (plainCopyName name isDir) = true)
    (hall : ∀ k, 2 ≤ k → k ≤ 1000 →
      ex (numberedCopyName name isDir k) = true) :
    generate_copy_name ex name isDir = Except.error FsError.tooManyCopies := by
  simp only [plainCopyName] at hplain
  simp only [generate_copy_name, hplain, if_true]
  simp only [numberedCopyName] at hall
  exact tryCounters_all_taken ex _ _ 999 2 (fun j hj1 hj2 => hall j hj1 (by omega))

/-- C8 witness: a destination directory in which every name is taken. -/
theorem generate_copy_name_exhausted_witness :
    generate_copy_name exAll "report.txt" false =
      Except.error FsError.tooManyCopies :=
  generate_copy_name_exhausted exAll "report.txt" false rfl
    (fun _ _ _ => rfl)

/-- C10: for a non-directory whose name is a leading dot followed by
dot-free text (such as `.env`), the rsplit-based extension split yields an
empty base name and treats the whole name as the extension, so the
generated copy is ` - Copy.env`-style (` - Copy` prepended to the whole
name), not `.env - Copy`. -/
theorem dotfile_copy_name (ex : String → Bool) (rest : List Char)
    (hnd : '.' ∉ rest)
    (hfree : ex (" - Copy" ++ String.mk ('.' :: rest)) = false) :
    split_name false (String.mk ('.' :: rest)) =
      ("", String.mk ('.' :: rest)) ∧
    (∀ k : Nat, numberedCopyName (String.mk ('.' :: rest)) false k =
      " - Copy (" ++ toString k ++ ")" ++ String.mk ('.' :: rest)) ∧
    generate_copy_name ex (String.mk ('.' :: rest)) false =
      Except.ok (" - Copy" ++ String.mk ('.' :: rest)) := by
  have hsplit : rsplitLastDot ('.' :: rest) = some ([], rest) := by
    simp [rsplitLastDot, rsplitLastDot_of_not_mem rest hnd]
  have hdot : ("." ++ String.mk rest) = String.mk ('.' :: rest) := by
    apply String.ext
    simp [String.data_append]
  have hs : split_name false (String.mk ('.' :: rest)) =
      ("", String.mk ('.' :: rest)) := by
    simp [split_name, hsplit, hdot]
  refine ⟨hs, ?_, ?_⟩
  · intro k
    simp only [numberedCopyName, hs]
    apply String.ext
    simp [String.data_append]
  · have hplain : ("" : String) ++ " - Copy" ++ String.mk ('.' :: rest) =
        " - Copy" ++ String.mk ('.' :: rest) := by
      apply String.ext
      simp [String.data_append]
    simp only [generate_copy_name, hs, hplain, hfree]
    simp

/-- C10 witness: copying `.env` into a directory that contains only
`.env` produces the name ` - Copy.env`. -/
theorem dotfile_copy_name_witness :
    '.' ∉ ("env".data) ∧
    generate_copy_name exDot (String.mk ('.' :: "env".data)) false =
      Except.ok (" - Copy" ++ String.mk ('.' :: "env".data)) :=
  ⟨by decide, (dotfile_copy_name exDot ("env".data) (by decide) (by decide)).2.2⟩

/-! ## C4: move -/

/-- Post-state of a successful `shutil.move`: when nothing exists at or
below the target, the source path is gone and the target subtree carries
exactly the source's prior nodes. -/
theorem fsMove_post (fs : Fs) (src tgt : List String)
    (hs : (fs src).isSome = true)
    (htf : ∀ u : List String, fs (tgt ++ u) = none) :
    fsMove fs src tgt src = none ∧
    (∀ u : List String, fsMove fs src tgt (tgt ++ u) = fs (src ++ u)) := by
  have hnpre : ¬ tgt <+: src := by
    intro hpre
    obtain ⟨u, hu⟩ := hpre
    have h0 := htf u
    rw [hu] at h0
    rw [h0] at hs
    simp at hs
  refine ⟨?_, ?_⟩
  · simp [fsMove, hnpre, List.prefix_refl]
  · intro u
    have hp : tgt <+: tgt ++ u := List.prefix_append _ _
    simp [fsMove, hp, List.drop_left]

/-- C4: with both the source and the destination directory existing,
`move_entry` fails with `AlreadyExists` exactly when
`destDir/<source name>` exists; and on success (the target free, including
— by well-formedness of real filesystems — its would-be descendants, and
the source not an ancestor of the target, a case `shutil.move` rejects)
the source path no longer exists while the target holds the source's prior
content, node for node. -/
theorem move_entry_spec (fs : Fs) (src destDir : List String)
    (hs : (fs src).isSome = true) (hd : (fs destDir).isSome = true) :
    (move_entry fs src destDir = Except.error FsError.alreadyExists ↔
      (fs (destDir ++ [src.getLastD ""])).isSome = true) ∧
    ((∀ u : List String, fs ((destDir ++ [src.getLastD ""]) ++ u) = none) →
      ¬ src <+: (destDir ++ [src.getLastD ""]) →
      fsMove fs src (destDir ++ [src.getLastD ""]) src = none ∧
      (∀ u : List String,
        fsMove fs src (destDir ++ [src.getLastD ""])
          ((destDir ++ [src.getLastD ""]) ++ u) = fs (src ++ u)) ∧
      move_entry fs src destDir =
        Except.ok (fsMove fs src (destDir ++ [src.getLastD ""]),
                   destDir ++ [src.getLastD ""])) := by
  have hsN : (fs src).isNone = false := by
    cases hfs : fs src with
    | none => rw [hfs] at hs; simp at hs
    | some v => simp
  have hdN : (fs destDir).isNone = false := by
    cases hfd : fs destDir with
    | none => rw [hfd] at hd; simp at hd
    | some v => simp
  constructor
  · unfold move_entry
    rw [hsN, hdN]
    by_cases ht : (fs (destDir ++ [src.getLastD ""])).isSome = true
    · rw [ht]
      simp
    · rw [Bool.not_eq_true] at ht
      rw [ht]
      simp
  · intro htf hsep
    have htgt : (fs (destDir ++ [src.getLastD ""])).isSome = false := by
      have h0 := htf []
      rw [List.append_nil] at h0
      rw [h0]
      rfl
    have hpost := fsMove_post fs src (destDir ++ [src.getLastD ""]) hs htf
    refine ⟨hpost.1, hpost.2, ?_⟩
    unfold move_entry
    rw [hsN, hdN, htgt]
    simp

/-- C4 witness: moving file `a` into directory `b` on the concrete
filesystem `fsW`: the collision check is clear, the move succeeds, `a` is
gone and `b/a` holds its content. -/
theorem move_entry_spec_witness :
    fsMove fsW ["a"] ["b", "a"] ["a"] = none ∧
    move_entry fsW ["a"] ["b"] =
      Except.ok (fsMove fsW ["a"] ["b", "a"], ["b", "a"]) := by
  have h := (move_entry_spec fsW ["a"] ["b"] (by decide) (by decide)).2
    (fun u => by simp [fsW]) (by decide)
  exact ⟨h.1, h.2.2⟩

/-! ## C5: the global enumeration cap -/

/-- Each yield consumes exactly one unit of the global budget: emitted
entries plus leftover budget equal the incoming budget. -/
theorem yieldNames_budget (kind : EKind) (relDir : List String) :
    ∀ b ns, (yieldNames kind relDir b ns).1.length +
      (yieldNames kind relDir b ns).2 = b := by
  intro b ns
  induction ns generalizing b with
  | nil => simp [yieldNames]
  | cons n ns ih =>
    cases b with
    | zero => simp [yieldNames]
    | succ b =>
      have := ih b
      simp only [yieldNames, List.length_cons]
      omega

mutual
/-- Budget accounting across a whole directory: the walk of one tree emits
exactly the budget it consumes. -/
theorem walkTree_budget : ∀ (b : Nat) (rd : List String) (t : DirTree),
    (walkTree b rd t).1.length + (walkTree b rd t).2 = b
  | b, rd, .node ds files => by
    have h1 := yieldNames_budget .directory rd b (visNames ds)
    have h2 := yieldNames_budget .file rd
      (yieldNames .directory rd b (visNames ds)).2
      (files.filter (fun f => !startsWithDot f))
    have h3 := walkForest_budget
      (yieldNames .file rd (yieldNames .directory rd b (visNames ds)).2
        (files.filter (fun f => !startsWithDot f))).2 rd ds
    simp only [walkTree, List.length_append]
    omega
/-- Budget accounting across a list of sibling subtrees. -/
theorem walkForest_budget : ∀ (b : Nat) (rd : List String) (ds : DirForest),
    (walkForest b rd ds).1.length + (walkForest b rd ds).2 = b
  | b, rd, .nil => by simp [walkForest]
  | b, rd, .cons n t rest => by
    by_cases h : isTraversable n = true
    · have h1 := walkTree_budget b (rd ++ [n]) t
      have h2 := walkForest_budget (walkTree b (rd ++ [n]) t).2 rd rest
      simp only [walkForest, h, if_true, List.length_append]
      omega
    · have h2 := walkForest_budget b rd rest
      simp only [walkForest, h, if_false]
      exact h2
end

/-- C5: across the whole recursive walk, `walk_entries` yields at most
`max_entries` entries in total (default 10000 in the source) — one global
ceiling shared by every directory of the tree, so the candidate set handed
to the fuzzy ranking never exceeds it. -/
theorem walk_entries_length_le (t : DirTree) (max_entries : Nat) :
    (walk_entries t max_entries).length ≤ max_entries := by
  have h := walkTree_budget max_entries [] t
  unfold walk_entries
  omega

/-! ## C6: pruning -/

/-- `isTraversable` spelt out: not in the skip-set and not dot-prefixed. -/
theorem isTraversable_eq (d : String) :
    isTraversable d = true ↔
      (SKIP_DIRS.contains d = false ∧ startsWithDot d = false) := by
  simp [isTraversable]

/-- Names surviving the `visible_dirs` filter are traversable. -/
theorem visNames_traversable :
    ∀ (ds : DirForest) (n : String), n ∈ visNames ds → isTraversable n = true
  | .nil, n => by simp [visNames]
  | .cons m t rest, n => by
    by_cases h : isTraversable m = true
    · simp only [visNames, h, if_true, List.mem_cons]
      rintro (rfl | hm)
      · exact h
      · exact visNames_traversable rest n hm
    · simp only [visNames, h, if_false]
      exact visNames_traversable rest n

/-- Entries emitted by one yield loop: they carry the loop's kind and a
path extending `relDir` by one of the loop's names. -/
theorem yieldNames_mem (kind : EKind) (relDir : List String) :
    ∀ b ns p k, (p, k) ∈ (yieldNames kind relDir b ns).1 →
      k = kind ∧ ∃ n, n ∈ ns ∧ p = relDir ++ [n] := by
  intro b ns
  induction ns generalizing b with
  | nil => intro p k h; simp [yieldNames] at h
  | cons n ns ih =>
    intro p k
    cases b with
    | zero => intro h; simp [yieldNames] at h
    | succ b =>
      simp only [yieldNames, List.mem_cons, Prod.mk.injEq]
      rintro (⟨rfl, rfl⟩ | hmem)
      · exact ⟨rfl, n, Or.inl rfl, rfl⟩
      · obtain ⟨hk, m, hm, hp⟩ := ih b p k hmem
        exact ⟨hk, m, Or.inr hm, hp⟩

mutual
/-- Walk invariant: if every component of `relDir` is traversable, then
every emitted entry is `q ++ [n]` with all of `q` traversable, `n`
traversable when the entry is a directory, and `n` not dot-prefixed when
it is a file. -/
theorem walkTree_mem : ∀ (b : Nat) (rd : List String) (t : DirTree)
    (p : List String) (k : EKind),
    (∀ c ∈ rd, isTraversable c = true) → (p, k) ∈ (walkTree b rd t).1 →
    ∃ q n, p = q ++ [n] ∧ (∀ c ∈ q, isTraversable c = true) ∧
      (k = EKind.directory → isTraversable n = true) ∧
      (k = EKind.file → startsWithDot n = false)
  | b, rd, .node ds files, p, k => by
    intro hrd hmem
    simp only [walkTree, List.mem_append] at hmem
    rcases hmem with h | h | h
    · obtain ⟨hk, n, hn, hp⟩ := yieldNames_mem .directory rd b (visNames ds) p k h
      subst hk
      subst hp
      refine ⟨rd, n, rfl, hrd, fun _ => visNames_traversable ds n hn, ?_⟩
      intro hf
      cases hf
    · obtain ⟨hk, n, hn, hp⟩ := yieldNames_mem .file rd _
        (files.filter (fun f => !startsWithDot f)) p k h
      subst hk
      subst hp
      have hdotf : startsWithDot n = false := by
        have := List.of_mem_filter hn
        simpa using this
      refine ⟨rd, n, rfl, hrd, ?_, fun _ => hdotf⟩
      intro hd
      cases hd
    · exact walkForest_mem _ rd ds p k hrd h
/-- The same invariant for the descent through the sibling list. -/
theorem walkForest_mem : ∀ (b : Nat) (rd : List String) (ds : DirForest)
    (p : List String) (k : EKind),
    (∀ c ∈ rd, isTraversable c = true) → (p, k) ∈ (walkForest b rd ds).1 →
    ∃ q n, p = q ++ [n] ∧ (∀ c ∈ q, isTraversable c = true) ∧
      (k = EKind.directory → isTraversable n = true) ∧
      (k = EKind.file → startsWithDot n = false)
  | b, rd, .nil, p, k => by
    intro _ h
    simp [walkForest] at h
  | b, rd, .cons n t rest, p, k => by
    intro hrd hmem
    by_cases h : isTraversable n = true
    · simp only [walkForest, h, if_true, List.mem_append] at hmem
      rcases hmem with hm | hm
      · have hrd' : ∀ c ∈ rd ++ [n], isTraversable c = true := by
          intro c hc
          rcases List.mem_append.mp hc with hc | hc
          · exact hrd c hc
          · rw [List.mem_singleton.mp hc]
            exact h
        exact walkTree_mem b (rd ++ [n]) t p k hrd' hm
      · exact walkForest_mem _ rd rest p k hrd hm
    · simp only [walkForest, h, if_false] at hmem
      exact walkForest_mem b rd rest p k hrd hmem
end

/-- C6: every entry `walk_entries` emits has all its ancestor components
outside the skip-set and not dot-prefixed (so the walk never descends into
— and a pruned subtree never contributes an entry, whatever it contains);
an emitted directory's own name is likewise outside the skip-set and not
dot-prefixed, and an emitted file's name is never dot-prefixed. -/
theorem walk_entries_pruned (t : DirTree) (max_entries : Nat)
    (p : List String) (k : EKind)
    (hmem : (p, k) ∈ walk_entries t max_entries) :
    p ≠ [] ∧
    (∀ c ∈ p.dropLast,
      SKIP_DIRS.contains c = false ∧ startsWithDot c = false) ∧
    (k = EKind.directory →
      SKIP_DIRS.contains (p.getLastD "") = false ∧
      startsWithDot (p.getLastD "") = false) ∧
    (k = EKind.file → startsWithDot (p.getLastD "") = false) := by
  obtain ⟨q, n, rfl, hq, hdir, hfile⟩ :=
    walkTree_mem max_entries [] t p k (by simp) hmem
  have hlast : (q ++ [n]).getLastD "" = n := by
    simp
  refine ⟨by simp, ?_, ?_, ?_⟩
  · intro c hc
    rw [List.dropLast_concat] at hc
    exact (isTraversable_eq c).mp (hq c hc)
  · intro hd
    rw [hlast]
    exact (isTraversable_eq n).mp (hdir hd)
  · intro hf
    rw [hlast]
    exact hfile hf

/-- C6 witness: on the concrete tree `treeW` the walk emits the directory
entry `sub`, whose path components satisfy the pruning invariant. -/
theorem walk_entries_pruned_witness :
    (["sub"], EKind.directory) ∈ walk_entries treeW 10 ∧
    (["sub"] : List String) ≠ [] ∧
    (∀ c ∈ (["sub"] : List String).dropLast,
      SKIP_DIRS.contains c = false ∧ startsWithDot c = false) ∧
    (EKind.directory = EKind.directory →
      SKIP_DIRS.contains ((["sub"] : List String).getLastD "") = false ∧
      startsWithDot ((["sub"] : List String).getLastD "") = false) ∧
    (EKind.directory = EKind.file →
      startsWithDot ((["sub"] : List String).getLastD "") = false) :=
  ⟨by decide, walk_entries_pruned treeW 10 ["sub"] EKind.directory (by decide)⟩
